import Mathlib

/-!
Shallow embedding of the DeCAF reference implementation
(`decaf-reference/decaf_reference.go`) and proofs about it.

Modelling conventions:
* Byte buffers (`[]byte`) are `List Nat`; every byte produced by the encoders
  is `< 256`.  Machine integers (`uint64`, `uint16`, `uint8`) are `Nat` with an
  explicit `% 2^w` at the points where the Go code converts or truncates.
* The external collaborators that the Go code calls as black boxes —
  xxHash3-64 (`xxhash3.Hash`), zstd (`zstd.CompressLevel` / `zstd.Decompress`)
  and the platform path functions (`path/filepath`) — are parameters, gathered
  in the `Stdlib` structure.  The codec under `src/` never inspects their
  results except for equality/length, so every theorem below either holds for
  all instantiations or is evaluated at the simple instantiation `lib0`.
* Go slice expressions `b[lo:hi]` panic when the bounds are out of range; this
  is modelled by `goSlice`/`goSliceFrom`/`goIndex` returning
  `Except GoPanic _`.  (We model the canonical case `cap = len`.)
* `Unarchive`'s writes to the output directory are modelled as a log of
  `SinkOp` actions; the host sink is a parameter `sink : SinkOp → Option
  String` where `some e` makes the corresponding `os.*` call fail, which the
  Go code turns into a panic.
-/

namespace Decaf

/-- Little-endian 16-bit encoding, as produced by
`binary.LittleEndian.AppendUint16`. -/
def u16le (n : Nat) : List Nat :=
  [n % 256, n / 256 % 256]

/-- Little-endian 64-bit encoding, as produced by
`binary.LittleEndian.AppendUint64`. -/
def u64le (n : Nat) : List Nat :=
  [n % 256, n / 2 ^ 8 % 256, n / 2 ^ 16 % 256, n / 2 ^ 24 % 256,
   n / 2 ^ 32 % 256, n / 2 ^ 40 % 256, n / 2 ^ 48 % 256, n / 2 ^ 56 % 256]

/-- Little-endian decoding of a byte list (`binary.LittleEndian.Uint64` /
`Uint16`; the call sites always pass a slice of the exact width, so one
function serves both). -/
def leVal (b : List Nat) : Nat :=
  b.foldr (fun x a => x % 256 + 256 * a) 0

/-- The in-memory listing record of the reference implementation
(struct `Listing`). -/
structure Listing where
  totalLength : Nat
  bundleIndex : Nat
  bundleOffset : Nat
  contentSize : Nat
  checksum : Nat
  mode : Nat
  path : List Nat
  fileContent : List Nat
deriving DecidableEq, Repr

/-- The in-memory bundle record of the reference implementation
(struct `Bundle`). -/
structure Bundle where
  offsetInDataSection : Nat
  compressedSize : Nat
  uncompressedChecksum : Nat
  data : List Nat
deriving DecidableEq, Repr

def ModeNormal : Nat := 0
def ModeExecutable : Nat := 1
def ModeLink : Nat := 2
def ModeBareDir : Nat := 3

/-- The source tree handed to `Archive`, abstracting the host filesystem.
Directory entries carry their name as raw bytes. -/
inductive FsEntry where
  | file (perms : Nat) (content : List Nat)
  | symlink (target : List Nat)
  | dir (entries : List (List Nat × FsEntry))
deriving Repr

/-- Errors `Archive` returns (the Go code wraps them in `fmt.Errorf`; only
the shape matters here, not the message text). -/
inductive AErr where
  | readDirFailed (path : List (List Nat))
  | readFileFailed (path : List (List Nat))
  | linkFailed (path : List (List Nat))
  | compressFailed (msg : String)
deriving DecidableEq, Repr

/-- The external collaborators of the codec, as opaque parameters:
xxHash3-64, zstd level-3 compression and the platform path functions.
`linkStep` stands for the symlink-content derivation of `Archive`
(source lines 130–163: `Readlink`/`Clean`/`Join`/`Lstat`/`Rel`), which is
built entirely from platform path semantics; it returns `none` when the
symlink is skipped by those checks, `some content` otherwise.  No claim
below depends on symlink handling. -/
structure Stdlib where
  hash : List Nat → Nat
  compress : List Nat → Except String (List Nat)
  decompress : List Nat → Except String (List Nat)
  joinPath : List Nat → List Nat → List Nat
  dirPath : List Nat → List Nat
  linkStep : FsEntry → List (List Nat) → List Nat → Except AErr (Option (List Nat))

/-! ## Canonical order (source lines 192–216) -/

/-- Model of `strings.Compare`: byte-wise lexicographic comparison returning
-1 / 0 / +1. -/
def compareBytes : List Nat → List Nat → Int
  | [], [] => 0
  | [], _ :: _ => -1
  | _ :: _, [] => 1
  | a :: as, b :: bs => if a < b then -1 else if b < a then 1 else compareBytes as bs

/-- The comparator passed to `slices.SortFunc` (source lines 193–216).
The final branch is unreachable for duplicate-free paths; the Go code
panics there ("Encountered unsortable files!"), modelled as 0. -/
def cmpListing (a b : Listing) : Int :=
  if a.contentSize ≠ b.contentSize then
    (if a.contentSize > b.contentSize then 1 else -1)
  else if a.totalLength ≠ b.totalLength then
    (if a.totalLength > b.totalLength then 1 else -1)
  else if a.path ≠ b.path then compareBytes a.path b.path
  else 0

def listingLE (a b : Listing) : Prop := cmpListing a b ≤ 0

instance : DecidableRel listingLE := fun a b => by
  unfold listingLE; infer_instance

/-- Model of `slices.SortFunc(listings, cmp)`: sorts w.r.t. the comparator (the Go
contract guarantees a permutation that is sorted by `cmp`; we realize it with
insertion sort, whose output any conforming sort agrees with up to the order
of `cmp`-equal elements — and the theorems below only use sortedness and
permutation). -/
def sortListings (ls : List Listing) : List Listing :=
  List.insertionSort listingLE ls

/-! ## Bundle assignment (source lines 219–234) -/

def targetBundleSize : Nat := 10 * (1024 * 1024)

/-- The bundle-assignment loop of `Archive` (source lines 222–230), with the
running state `(currentBundleIndex, currentBundleSize)` explicit.  The Go
condition `currentBundleSize > targetBundleSize || i == len(listings)-1`
becomes `curSize > targetBundleSize ∨ rest = []`. -/
def assignBundles (curIdx curSize : Nat) : List Listing → List Listing
  | [] => []
  | l :: rest =>
    if curSize > targetBundleSize ∨ rest = [] then
      { l with bundleIndex := curIdx + 1, bundleOffset := 0 } ::
        assignBundles (curIdx + 1) l.contentSize rest
    else
      { l with bundleIndex := curIdx, bundleOffset := curSize } ::
        assignBundles curIdx (curSize + l.contentSize) rest

/-- The value of `currentBundleIndex` after the assignment loop. -/
def finalBundleIndex (curIdx curSize : Nat) : List Listing → Nat
  | [] => curIdx
  | l :: rest =>
    if curSize > targetBundleSize ∨ rest = [] then
      finalBundleIndex (curIdx + 1) l.contentSize rest
    else
      finalBundleIndex curIdx (curSize + l.contentSize) rest

/-- Computes `bundlesNeeded := currentBundleIndex + 1` (source line 234). -/
def bundlesNeeded (ls : List Listing) : Nat :=
  finalBundleIndex 0 0 ls + 1

/-- The uncompressed content of bundle `k`: the Go fill loop (source lines
243–246) appends each listing's content to `uncompressedBundleContents[
listing.bundleIndex]` in listing order, so buffer `k` ends up as the in-order
concatenation of the contents assigned to bundle `k`. -/
def bundleContent (ls : List Listing) (k : Nat) : List Nat :=
  ((ls.filter (fun l => l.bundleIndex == k)).map (·.fileContent)).flatten

def uncompressedBundleContents (ls : List Listing) : List (List Nat) :=
  (List.range (bundlesNeeded ls)).map (fun k => bundleContent ls k)

/-- Compress the bundles and build their header records
(source lines 249–274). -/
def buildBundles (lib : Stdlib) : List (List Nat) → Nat → Except AErr (List Bundle)
  | [], _ => .ok []
  | u :: rest, off =>
    match lib.compress u with
    | .error e => .error (.compressFailed e)
    | .ok comp =>
      match buildBundles lib rest (off + comp.length) with
      | .error e => .error e
      | .ok bs =>
        .ok ({ offsetInDataSection := off, compressedSize := comp.length,
               uncompressedChecksum := lib.hash u, data := comp } :: bs)

/-! ## Serialization (source lines 276–332) -/

/-- One listing's encoding in the listing header (source lines 280–286). -/
def listingBytes (l : Listing) : List Nat :=
  u16le l.totalLength ++ u64le l.bundleIndex ++ u64le l.bundleOffset ++
    u64le l.contentSize ++ u64le l.checksum ++ [l.mode % 256] ++ l.path

def listingHeaderBytes (ls : List Listing) : List Nat :=
  (ls.map listingBytes).flatten

/-- One bundle's 24-byte header record (source lines 292–294). -/
def bundleRecordBytes (b : Bundle) : List Nat :=
  u64le b.offsetInDataSection ++ u64le b.compressedSize ++
    u64le b.uncompressedChecksum

def bundleHeaderBytes (bs : List Bundle) : List Nat :=
  (bs.map bundleRecordBytes).flatten

def dataSectionBytes (bs : List Bundle) : List Nat :=
  (bs.map (·.data)).flatten

def magicNumber : Nat := 0x66616365646D6169

/-- Everything `Archive` does after the filesystem walk: sort, assign
bundles, compress, serialize headers and data, and prepend magic +
whole-archive checksum (source lines 192–335). -/
def archiveFromListings (lib : Stdlib) (walked : List Listing) : Except AErr (List Nat) :=
  let sorted := sortListings walked
  let assigned := assignBundles 0 0 sorted
  match buildBundles lib (uncompressedBundleContents assigned) 0 with
  | .error e => .error e
  | .ok bundles =>
    let lh := listingHeaderBytes assigned
    let bh := bundleHeaderBytes bundles
    let meta := u64le lh.length ++ u64le assigned.length ++ u64le bundles.length
    let body := meta ++ lh ++ bh ++ dataSectionBytes bundles
    .ok (u64le magicNumber ++ u64le (lib.hash body) ++ body)

/-! ## The filesystem walk (source lines 82–190) -/

/-- Resolve a path (list of name segments) inside a tree, like the OS path
lookup that `os.ReadDir` performs. -/
def resolveEntry : FsEntry → List (List Nat) → Option FsEntry
  | e, [] => some e
  | FsEntry.dir es, n :: rest =>
    match es.find? (fun p => p.1 == n) with
    | some p => resolveEntry p.2 rest
    | none => none
  | _, _ :: _ => none

/-- Model of `os.ReadDir`: errors when the path does not exist or is not a
directory. -/
def readDirModel (root : FsEntry) (segs : List (List Nat)) :
    Except AErr (List (List Nat × FsEntry)) :=
  match resolveEntry root segs with
  | some (FsEntry.dir es) => .ok es
  | _ => .error (.readDirFailed segs)

/-- The literal junk suffix the source appends before calling `os.ReadDir`
(source line 100): `"fasfasfasf"`. -/
def junkName : List Nat := [102, 97, 115, 102, 97, 115, 102, 97, 115, 102]

/-- Model of `filepath.Rel(inputDirectoryPath, path)`: `"."` for the root itself,
otherwise the segments joined with `/`. -/
def relPath (segs : List (List Nat)) : List Nat :=
  match segs with
  | [] => [46]
  | _ => List.intercalate [47] segs

/-- Construct the partially-filled listing of source lines 174–182:
`totalLength` is computed in `uint16` arithmetic as
`uint16(len(relativePath)) + 35`. -/
def mkWalkListing (p : List Nat) (mode : Nat) (content : List Nat)
    (checksum : Nat) : Listing :=
  { totalLength := (p.length % 65536 + 35) % 65536,
    bundleIndex := 0, bundleOffset := 0,
    contentSize := content.length, checksum := checksum,
    mode := mode, path := p, fileContent := content }

/-- Owner-read bit (0o400); `os.ReadFile` fails without it.  The walk never
checks any permission bit before reading. -/
def ownerReadBit : Nat := 0o400

/-- Owner-execute bit: the source tests `fileInfo.Mode()&1<<6 != 0`
(source line 112). -/
def ownerExecBit : Nat := 64

mutual

/-- The `filepath.WalkDir` callback applied to one entry, followed by the
walk of its children (`WalkDir` recurses into a directory whenever the
callback returns nil).  Translates source lines 82–187:
* directory: `os.ReadDir(path+"/fasfasfasf")` (line 100) — an error aborts
  the walk; if it yields more than one entry the directory is skipped;
  otherwise a `ModeBareDir` listing is emitted;
* symlink: content derived by `lib.linkStep` (lines 130–163), `none` = skip;
* regular file: executable iff the 1<<6 permission bit is set; content read
  from disk (an unreadable file makes `os.ReadFile` fail). -/
def walkEntry (lib : Stdlib) (root : FsEntry) (node : FsEntry)
    (segs : List (List Nat)) : Except AErr (List Listing) :=
  match node with
  | FsEntry.dir es =>
    match readDirModel root (segs ++ [junkName]) with
    | .error e => .error e
    | .ok subEntries =>
      let here : List Listing :=
        if subEntries.length > 1 then []
        else [mkWalkListing (relPath segs) ModeBareDir [] 0]
      match walkChildren lib root es segs with
      | .error e => .error e
      | .ok rest => .ok (here ++ rest)
  | FsEntry.symlink target =>
    match lib.linkStep root segs target with
    | .error e => .error e
    | .ok none => .ok []
    | .ok (some content) =>
      .ok [mkWalkListing (relPath segs) ModeLink content 0]
  | FsEntry.file perms content =>
    let m := if perms &&& ownerExecBit ≠ 0 then ModeExecutable else ModeNormal
    if perms &&& ownerReadBit = 0 then .error (.readFileFailed segs)
    else .ok [mkWalkListing (relPath segs) m content (lib.hash content)]

/-- Walk the children of a directory in order. -/
def walkChildren (lib : Stdlib) (root : FsEntry)
    (es : List (List Nat × FsEntry)) (segs : List (List Nat)) :
    Except AErr (List Listing) :=
  match es with
  | [] => .ok []
  | (n, c) :: rest =>
    match walkEntry lib root c (segs ++ [n]) with
    | .error e => .error e
    | .ok l1 =>
      match walkChildren lib root rest segs with
      | .error e => .error e
      | .ok l2 => .ok (l1 ++ l2)

end

/-- The full `Archive` (source lines 72–336): walk the tree from the root,
then sort / pack / serialize. -/
def Archive (lib : Stdlib) (tree : FsEntry) : Except AErr (List Nat) :=
  match walkEntry lib tree tree [] with
  | .error e => .error e
  | .ok listings => archiveFromListings lib listings

/-! ## Unarchive (source lines 338–480) -/

/-- How `Unarchive` aborts: an explicit `panic(...)` with a message, or a Go
runtime panic from an out-of-range slice or index expression. -/
inductive GoPanic where
  | message (s : String)
  | sliceOutOfRange
  | indexOutOfRange
deriving DecidableEq, Repr

/-- One call into the output sink (the `os.*` calls of the materialize loop,
source lines 424–477). -/
inductive SinkOp where
  | mkdirAll (path : List Nat) (mode : Nat)
  | symlink (target : List Nat) (path : List Nat)
  | create (path : List Nat)
  | chmod (path : List Nat) (mode : Nat)
  | write (path : List Nat) (content : List Nat)
deriving DecidableEq, Repr

/-- Go slice expression `b[lo:hi]` (cap = len): panics when the bounds are
out of range. -/
def goSlice (b : List Nat) (lo hi : Nat) : Except GoPanic (List Nat) :=
  if lo ≤ hi ∧ hi ≤ b.length then .ok ((b.drop lo).take (hi - lo))
  else .error .sliceOutOfRange

/-- Go slice expression `b[lo:]`. -/
def goSliceFrom (b : List Nat) (lo : Nat) : Except GoPanic (List Nat) :=
  if lo ≤ b.length then .ok (b.drop lo) else .error .sliceOutOfRange

/-- Go index expression `l[i]`. -/
def goIndex {α : Type} (l : List α) (i : Nat) : Except GoPanic α :=
  if h : i < l.length then .ok (l.get ⟨i, h⟩) else .error .indexOutOfRange

/-- The bundle-reading loop (source lines 361–389): parse `bundleCount`
24-byte records, slice out and decompress each bundle's data, verify its
checksum. -/
def readBundles (lib : Stdlib) (bundleHeader dataSection : List Nat) :
    Nat → Nat → Except GoPanic (List Bundle)
  | 0, _ => .ok []
  | k + 1, cursor => do
    let r1 ← goSlice bundleHeader cursor (cursor + 8)
    let r2 ← goSlice bundleHeader (cursor + 8) (cursor + 16)
    let r3 ← goSlice bundleHeader (cursor + 16) (cursor + 24)
    let off := leVal r1
    let csize := leVal r2
    let cks := leVal r3
    let cdata ← goSlice dataSection off (off + csize)
    match lib.decompress cdata with
    | .error _ => .error (.message "failed to decompress bundle")
    | .ok bdata =>
      if cks ≠ lib.hash bdata then .error (.message "bad bundle checksum")
      else do
        let rest ← readBundles lib bundleHeader dataSection k (cursor + 24)
        .ok ({ offsetInDataSection := off, compressedSize := csize,
               uncompressedChecksum := cks, data := bdata } :: rest)

/-- The listing-parsing loop (source lines 391–421): parse `listingCount`
records, advancing `listingHeader` by each record's `totalLength`; for modes
0/1/2 slice the content out of the bundle, and for modes 0/1 verify its
checksum.  No check rejects a mode byte greater than 3. -/
def readListings (lib : Stdlib) (bundles : List Bundle) :
    Nat → List Nat → Except GoPanic (List Listing)
  | 0, _ => .ok []
  | k + 1, listingHeader => do
    let t ← goSlice listingHeader 0 2
    let listingLength := leVal t
    let f1 ← goSlice listingHeader 2 10
    let f2 ← goSlice listingHeader 10 18
    let f3 ← goSlice listingHeader 18 26
    let f4 ← goSlice listingHeader 26 34
    let mo ← goIndex listingHeader 34
    let pathB ← goSlice listingHeader 35 listingLength
    let rest ← goSliceFrom listingHeader listingLength
    let bIdx := leVal f1
    let bOff := leVal f2
    let cSize := leVal f3
    let cks := leVal f4
    let mode := mo % 256
    let fileContent ←
      if mode = ModeNormal ∨ mode = ModeExecutable ∨ mode = ModeLink then do
        let b ← goIndex bundles bIdx
        goSlice b.data bOff (bOff + cSize)
      else .ok []
    if (mode = ModeNormal ∨ mode = ModeExecutable) ∧ cks ≠ lib.hash fileContent then
      .error (.message "bad listing checksum")
    else do
      let more ← readListings lib bundles k rest
      .ok ({ totalLength := listingLength, bundleIndex := bIdx,
             bundleOffset := bOff, contentSize := cSize, checksum := cks,
             mode := mode, path := pathB, fileContent := fileContent } :: more)

/-- Turn a sink result into control flow: the Go code panics on any sink
error (source lines 431–476). -/
def sinkCall (sink : SinkOp → Option String) (op : SinkOp) :
    Except GoPanic Unit :=
  match sink op with
  | some e => .error (.message e)
  | none => .ok ()

/-- The materialize loop (source lines 424–477), returning the log of sink
calls: parent `MkdirAll` for every listing; `ModeBareDir` → `MkdirAll`;
`ModeLink` → `Symlink`; anything else (including any mode > 3) →
`Create` + `Chmod 0o100644`/`0o100755` + `Write`. -/
def materialize (lib : Stdlib) (sink : SinkOp → Option String)
    (out : List Nat) : List Listing → Except GoPanic (List SinkOp)
  | [] => .ok []
  | l :: rest => do
    let listingPath := lib.joinPath out l.path
    let parentOp := SinkOp.mkdirAll (lib.dirPath listingPath) 0o100755
    let _ ← sinkCall sink parentOp
    if l.mode = ModeBareDir then do
      let op := SinkOp.mkdirAll listingPath 0o100755
      let _ ← sinkCall sink op
      let more ← materialize lib sink out rest
      .ok (parentOp :: op :: more)
    else if l.mode = ModeLink then do
      let op := SinkOp.symlink l.fileContent listingPath
      let _ ← sinkCall sink op
      let more ← materialize lib sink out rest
      .ok (parentOp :: op :: more)
    else do
      let op1 := SinkOp.create listingPath
      let _ ← sinkCall sink op1
      let unixMode := if l.mode = ModeExecutable then 0o100755 else 0o100644
      let op2 := SinkOp.chmod listingPath unixMode
      let _ ← sinkCall sink op2
      let op3 := SinkOp.write listingPath l.fileContent
      let _ ← sinkCall sink op3
      let more ← materialize lib sink out rest
      .ok (parentOp :: op1 :: op2 :: op3 :: more)

/-- The body of `Unarchive` (source lines 338–479), up to its single
`return nil`: parse and verify the archive, then materialize.  All failures
are panics. -/
def UnarchiveCore (lib : Stdlib) (sink : SinkOp → Option String)
    (archive : List Nat) (out : List Nat) : Except GoPanic (List SinkOp) := do
  let s1 ← goSlice archive 0 8
  if leVal s1 ≠ magicNumber then .error (.message "bad magic")
  else do
    let s2 ← goSlice archive 8 16
    let tail ← goSliceFrom archive 16
    if leVal s2 ≠ lib.hash tail then .error (.message "bad archive cksum")
    else do
      let s3 ← goSlice archive 16 24
      let s4 ← goSlice archive 24 32
      let s5 ← goSlice archive 32 40
      let listingHeaderSize := leVal s3
      let listingCount := leVal s4
      let bundleCount := leVal s5
      let listingHeaderStartOffset := 40
      let bundleHeaderStartOffset := listingHeaderStartOffset + listingHeaderSize
      let bundleHeaderSize := bundleCount * 24
      let dataSectionStartOffset := bundleHeaderStartOffset + bundleHeaderSize
      let listingHeader ← goSlice archive listingHeaderStartOffset bundleHeaderStartOffset
      let bundleHeader ← goSlice archive bundleHeaderStartOffset dataSectionStartOffset
      let dataSection ← goSliceFrom archive dataSectionStartOffset
      let bundles ← readBundles lib bundleHeader dataSection bundleCount 0
      let listings ← readListings lib bundles listingCount listingHeader
      materialize lib sink out listings

/-- Full `Unarchive`: the declared Go result is `error`; the function's only
`return` statement is `return nil`, so the translated result pairs the
(always-`nil`) returned error with the sink log. -/
def Unarchive (lib : Stdlib) (sink : SinkOp → Option String)
    (archive : List Nat) (out : List Nat) :
    Except GoPanic (Option String × List SinkOp) :=
  (UnarchiveCore lib sink archive out).map (fun ops => (none, ops))

/-- The value `Unarchive` hands back through its declared `error` result
(`none` when it does not return at all, i.e. panics). -/
def returnedError : Except GoPanic (Option String × List SinkOp) → Option String
  | .ok (e, _) => e
  | .error _ => none

/-! ## Concrete instantiations of the external collaborators -/

/-- A simple instantiation of the external collaborators: the constant-zero
hash, the identity codec, `/`-joining paths.  The codec under verification
treats all of these as black boxes. -/
def lib0 : Stdlib where
  hash := fun _ => 0
  compress := fun d => .ok d
  decompress := fun d => .ok d
  joinPath := fun a b => a ++ (47 :: b)
  dirPath := fun p => p
  linkStep := fun _ _ _ => .ok none

/-- A sink on which every operation succeeds. -/
def allOkSink : SinkOp → Option String := fun _ => none

/-- A listing of content size 1 at path "a". -/
def smallListingA : Listing :=
  { totalLength := 36, bundleIndex := 0, bundleOffset := 0, contentSize := 1,
    checksum := 0, mode := 0, path := [97], fileContent := [120] }

/-- A listing of content size 1 at path "b". -/
def smallListingB : Listing :=
  { totalLength := 36, bundleIndex := 0, bundleOffset := 0, contentSize := 1,
    checksum := 0, mode := 0, path := [98], fileContent := [121] }

/-- A listing whose recorded content size is exactly the 10 MiB target (the
packer only ever reads `contentSize`). -/
def targetSizeListing : Listing :=
  { totalLength := 36, bundleIndex := 0, bundleOffset := 0,
    contentSize := targetBundleSize, checksum := 0, mode := 0, path := [99],
    fileContent := [] }

/-- A listing record carrying the invalid mode byte 4. -/
def modeFourListing : Listing :=
  { totalLength := 36, bundleIndex := 0, bundleOffset := 0, contentSize := 0,
    checksum := 0, mode := 4, path := [97], fileContent := [] }

/-- Bytes 16.. of an archive holding exactly one listing, with mode byte 4,
and no bundles. -/
def modeFourTail : List Nat :=
  u64le 36 ++ u64le 1 ++ u64le 0 ++ listingBytes modeFourListing

/-- A whole archive holding one mode-4 listing; its checksums are the ones
`lib0.hash` assigns. -/
def modeFourArchive : List Nat :=
  u64le magicNumber ++ u64le 0 ++ modeFourTail

/-- A 40-byte archive (valid magic and `lib0` checksum) whose meta header
declares `listing_header_size = 1000`, far past the archive's length. -/
def truncatedArchive : List Nat :=
  u64le magicNumber ++ u64le 0 ++ u64le 1000 ++ u64le 0 ++ u64le 0

/-! ## Claim theorems (evaluation-style) -/

/-- C2: refuted as stated.  The packer's condition (source line 223) is
`currentBundleSize > targetBundleSize || i == len(listings)-1`: the last
listing always opens a fresh bundle even when the accumulated size is far
below TARGET (first conjunct: two 1-byte listings land in bundles 0 and 1),
and a bundle whose accumulated size exactly equals TARGET does not trigger a
new bundle for the next listing (second conjunct), contradicting both the
"met or exceeded" threshold and "for no other reason". -/
theorem bundlePacker_splits_on_last_listing :
    ((assignBundles 0 0 [smallListingA, smallListingB]).map (·.bundleIndex) = [0, 1]
      ∧ smallListingA.contentSize + smallListingB.contentSize < targetBundleSize)
    ∧ ((assignBundles 0 0 [targetSizeListing, smallListingA, smallListingB]).map
          (·.bundleIndex) = [0, 0, 1]
      ∧ targetSizeListing.contentSize = targetBundleSize) := by
  decide

/-- C4: refuted as stated.  For every directory the walk callback calls
`os.ReadDir(path+"/fasfasfasf")` (source line 100); that path does not exist,
so `Archive` fails on any tree containing a directory — an empty directory
produces no `BareDirectory` listing (first conjunct) and a populated
directory aborts the walk as well (second conjunct), instead of being
skipped. -/
theorem directories_abort_the_walk (lib : Stdlib) :
    walkEntry lib (FsEntry.dir []) (FsEntry.dir []) []
        = .error (.readDirFailed [junkName])
    ∧ walkEntry lib (FsEntry.dir [([97], FsEntry.file 0o644 [120])])
          (FsEntry.dir [([97], FsEntry.file 0o644 [120])]) []
        = .error (.readDirFailed [junkName]) := by
  constructor <;> simp [walkEntry, readDirModel, resolveEntry, junkName]

/-- C1: refuted as stated.  `Archive` fails on every tree whose root is a
directory (the `os.ReadDir(path+"/fasfasfasf")` call of source line 100
errors), so no archive is produced and `unarchive(archive(T))` cannot yield
`T` back — shown here for the empty tree, whose entries trivially satisfy
the §4.4 recognition rules. -/
theorem roundTrip_impossible_archive_errors (lib : Stdlib) :
    Archive lib (FsEntry.dir []) = .error (.readDirFailed [junkName]) := by
  simp [Archive, walkEntry, readDirModel, resolveEntry, junkName]

/-- C7: refuted as stated.  The walk never inspects the owner permission
bits: an owner-readable but not owner-writable regular file (0444) is
archived with a listing rather than silently omitted (first conjunct), and
an owner-unreadable file (0200) makes `os.ReadFile` fail, aborting `Archive`
with an error rather than a silent skip (second conjunct). -/
theorem unwritable_file_is_archived (lib : Stdlib) :
    walkEntry lib (FsEntry.file 0o444 [104, 105]) (FsEntry.file 0o444 [104, 105]) []
        = .ok [{ totalLength := 36, bundleIndex := 0, bundleOffset := 0,
                 contentSize := 2, checksum := lib.hash [104, 105], mode := 0,
                 path := [46], fileContent := [104, 105] }]
    ∧ walkEntry lib (FsEntry.file 0o200 [104, 105]) (FsEntry.file 0o200 [104, 105]) []
        = .error (.readFileFailed []) := by
  constructor <;>
    simp [walkEntry, mkWalkListing, relPath, ownerReadBit, ownerExecBit,
      ModeNormal, ModeExecutable] <;>
    decide

/-- C5: refuted as stated.  `Unarchive` performs no bounds checks and has no
`Truncated` error: on the empty input the very first slice expression
`archive[0:8]` triggers a Go runtime panic (first conjunct), and on a
40-byte archive with valid magic and checksum whose meta header declares
`listing_header_size = 1000` the slice `archive[40:1040]` runtime-panics
(second conjunct) — in neither case is a `Truncated` error returned. -/
theorem unarchive_runtime_panics_on_truncation :
    (∀ lib sink out, Unarchive lib sink [] out = .error .sliceOutOfRange)
    ∧ (∀ sink out, Unarchive lib0 sink truncatedArchive out = .error .sliceOutOfRange) := by
  constructor
  · intro lib sink out; rfl
  · intro sink out; rfl

/-- C10: confirmed.  `Unarchive`'s only `return` statement is `return nil`:
whenever it returns at all the declared error result is nil (first
conjunct), and failures abort by panic instead — e.g. a wrong magic number
panics with "bad magic" (second conjunct). -/
theorem unarchive_never_returns_an_error :
    (∀ lib sink a out, returnedError (Unarchive lib sink a out) = none)
    ∧ (∀ lib sink out, Unarchive lib sink (u64le 0) out = .error (.message "bad magic")) := by
  constructor
  · intro lib sink a out
    unfold Unarchive returnedError
    cases UnarchiveCore lib sink a out <;> rfl
  · intro lib sink out; rfl

/-- C6: refuted as stated.  `Unarchive` never checks the mode byte: a
listing with mode 4 raises no `BadMode` error and is materialized to the
sink as a regular 0644 file (the `Create`/`Chmod`/`Write` calls below). -/
theorem mode_four_listing_is_materialized (out : List Nat) :
    Unarchive lib0 allOkSink modeFourArchive out
      = .ok (none,
          [SinkOp.mkdirAll (lib0.dirPath (lib0.joinPath out [97])) 0o100755,
           SinkOp.create (lib0.joinPath out [97]),
           SinkOp.chmod (lib0.joinPath out [97]) 0o100644,
           SinkOp.write (lib0.joinPath out [97]) []]) := by
  rfl

/-- C8: refuted on the bundle count.  With zero listings the assignment loop
never runs, `currentBundleIndex` stays 0, and `bundlesNeeded =
currentBundleIndex + 1 = 1` (source line 234): the archive of an empty tree
records `listing_count = 0` (bytes 24..32) but `bundle_count = 1`
(bytes 32..40), with one empty bundle compressed into it — not the
`bundle_count = 0` the claim states. -/
theorem empty_tree_archive_has_one_bundle (lib : Stdlib) (cb : List Nat)
    (h : lib.compress [] = Except.ok cb) :
    ((archiveFromListings lib []).map
        (fun a => ((a.drop 24).take 8, (a.drop 32).take 8))
      = Except.ok (u64le 0, u64le 1))
    ∧ u64le 1 ≠ u64le 0 ∧ bundlesNeeded [] = 1 := by
  have hb : buildBundles lib [[]] 0
      = Except.ok [{ offsetInDataSection := 0, compressedSize := cb.length,
                     uncompressedChecksum := lib.hash [], data := cb }] := by
    simp [buildBundles, h]
  refine ⟨?_, by decide, by decide⟩
  have hred : uncompressedBundleContents (assignBundles 0 0 (sortListings [])) = [[]] := rfl
  simp only [archiveFromListings, hred, hb]
  rfl

/-- Closed witness for `empty_tree_archive_has_one_bundle`, discharging its
hypothesis at the concrete instantiation `lib0`. -/
theorem empty_tree_archive_has_one_bundle_witness :
    ((archiveFromListings lib0 []).map
        (fun a => ((a.drop 24).take 8, (a.drop 32).take 8))
      = Except.ok (u64le 0, u64le 1))
    ∧ u64le 1 ≠ u64le 0 ∧ bundlesNeeded [] = 1 :=
  empty_tree_archive_has_one_bundle lib0 [] rfl

/-! ## Canonical-order lemmas (for C3) -/

theorem compareBytes_eq_zero (p : List Nat) : ∀ q, compareBytes p q = 0 ↔ p = q := by
  induction p with
  | nil =>
    intro q; cases q with
    | nil => simp [compareBytes]
    | cons b bs => simp [compareBytes]
  | cons a as ih =>
    intro q; cases q with
    | nil => simp [compareBytes]
    | cons b bs =>
      simp only [compareBytes]
      split_ifs with h1 h2
      · constructor
        · intro h; exact absurd h (by decide)
        · intro h; injection h with h3 _; omega
      · constructor
        · intro h; exact absurd h (by decide)
        · intro h; injection h with h3 _; omega
      · have hab : a = b := by omega
        subst hab
        rw [ih bs]
        simp

theorem compareBytes_swap (p : List Nat) : ∀ q, compareBytes q p = -compareBytes p q := by
  induction p with
  | nil =>
    intro q; cases q with
    | nil => simp [compareBytes]
    | cons b bs => simp [compareBytes]
  | cons a as ih =>
    intro q; cases q with
    | nil => simp [compareBytes]
    | cons b bs =>
      simp only [compareBytes]
      rcases Nat.lt_trichotomy a b with h | h | h
      · simp [h, Nat.lt_asymm h]
      · subst h
        simp only [Nat.lt_irrefl, if_false]
        exact ih bs
      · simp [h, Nat.lt_asymm h]

theorem compareBytes_le_trans (p : List Nat) :
    ∀ q r, compareBytes p q ≤ 0 → compareBytes q r ≤ 0 → compareBytes p r ≤ 0 := by
  induction p with
  | nil =>
    intro q r _ _; cases r with
    | nil => simp [compareBytes]
    | cons c cs => simp [compareBytes]
  | cons a as ih =>
    intro q r h1 h2
    cases q with
    | nil => simp [compareBytes] at h1
    | cons b bs =>
      cases r with
      | nil => simp [compareBytes] at h2
      | cons c cs =>
        simp only [compareBytes] at h1 h2 ⊢
        rcases Nat.lt_trichotomy a b with hab | hab | hab
        · have hbc : b ≤ c := by
            by_contra hc
            push_neg at hc
            rw [if_neg (by omega), if_pos hc] at h2
            exact absurd h2 (by decide)
          rw [if_pos (by omega)]; decide
        · subst hab
          rw [if_neg (by omega), if_neg (by omega)] at h1
          rcases Nat.lt_trichotomy a c with hac | hac | hac
          · rw [if_pos hac]; decide
          · subst hac
            rw [if_neg (by omega), if_neg (by omega)] at h2 ⊢
            exact ih bs cs h1 h2
          · rw [if_neg (by omega), if_pos hac] at h2
            exact absurd h2 (by decide)
        · rw [if_pos hab, if_neg (by omega)] at h1
          exact absurd h1 (by decide)

/-- Characterization of the comparator's "less or equal" relation. -/
theorem listingLE_iff (a b : Listing) : listingLE a b ↔
    (a.contentSize < b.contentSize
      ∨ (a.contentSize = b.contentSize ∧ a.totalLength < b.totalLength)
      ∨ (a.contentSize = b.contentSize ∧ a.totalLength = b.totalLength
          ∧ compareBytes a.path b.path ≤ 0)) := by
  unfold listingLE cmpListing
  split_ifs with h1 h2 h3 h4 h5
  · constructor
    · intro hh; exact absurd hh (by decide)
    · intro hr; exfalso
      rcases hr with h | ⟨e, h⟩ | ⟨e, h, hc⟩ <;> omega
  · constructor
    · intro _; exact Or.inl (by omega)
    · intro _; decide
  · constructor
    · intro hh; exact absurd hh (by decide)
    · intro hr; exfalso
      rcases hr with h | ⟨e, h⟩ | ⟨e, h, hc⟩ <;> omega
  · constructor
    · intro _; exact Or.inr (Or.inl ⟨by omega, by omega⟩)
    · intro _; decide
  · constructor
    · intro h; exact Or.inr (Or.inr ⟨by omega, by omega, h⟩)
    · intro hr
      rcases hr with h | ⟨e, h⟩ | ⟨e, h, hc⟩
      · omega
      · omega
      · exact hc
  · have hz : compareBytes a.path b.path = 0 :=
      (compareBytes_eq_zero _ _).mpr (by push_neg at h5; exact h5)
    constructor
    · intro _; exact Or.inr (Or.inr ⟨by omega, by omega, by omega⟩)
    · intro _; decide

instance : IsTotal Listing listingLE := ⟨by
  intro a b
  rw [listingLE_iff, listingLE_iff]
  by_cases h1 : a.contentSize = b.contentSize
  · by_cases h2 : a.totalLength = b.totalLength
    · rcases le_or_lt (compareBytes a.path b.path) 0 with h3 | h3
      · exact Or.inl (Or.inr (Or.inr ⟨h1, h2, h3⟩))
      · refine Or.inr (Or.inr (Or.inr ⟨h1.symm, h2.symm, ?_⟩))
        rw [compareBytes_swap]; omega
    · rcases Nat.lt_or_ge a.totalLength b.totalLength with h3 | h3
      · exact Or.inl (Or.inr (Or.inl ⟨h1, h3⟩))
      · exact Or.inr (Or.inr (Or.inl ⟨h1.symm, by omega⟩))
  · rcases Nat.lt_or_ge a.contentSize b.contentSize with h2 | h2
    · exact Or.inl (Or.inl h2)
    · exact Or.inr (Or.inl (by omega))⟩

instance : IsTrans Listing listingLE := ⟨by
  intro a b c hab hbc
  rw [listingLE_iff] at hab hbc ⊢
  rcases hab with h | ⟨e1, h⟩ | ⟨e1, e2, h⟩ <;>
    rcases hbc with h2 | ⟨f1, h2⟩ | ⟨f1, f2, h2⟩
  · exact Or.inl (by omega)
  · exact Or.inl (by omega)
  · exact Or.inl (by omega)
  · exact Or.inl (by omega)
  · exact Or.inr (Or.inl ⟨by omega, by omega⟩)
  · exact Or.inr (Or.inl ⟨by omega, by omega⟩)
  · exact Or.inl (by omega)
  · exact Or.inr (Or.inl ⟨by omega, by omega⟩)
  · exact Or.inr (Or.inr ⟨by omega, by omega, compareBytes_le_trans _ _ _ h h2⟩)⟩

/-- Strict lexicographic order on the claim's key tuple
`(content_size, path length, path bytes)`. -/
def claimKeyLt (x y : Nat × List Nat) : Prop :=
  x.1 < y.1
    ∨ (x.1 = y.1 ∧ (x.2.length < y.2.length
        ∨ (x.2.length = y.2.length ∧ compareBytes x.2 y.2 < 0)))

instance (x y : Nat × List Nat) : Decidable (claimKeyLt x y) := by
  unfold claimKeyLt; infer_instance

/-- Listing `a` strictly precedes `b` in the claim's canonical order. -/
def claimLt (a b : Listing) : Prop :=
  claimKeyLt (a.contentSize, a.path) (b.contentSize, b.path)

instance (a b : Listing) : Decidable (claimLt a b) := by
  unfold claimLt; infer_instance

theorem listingLE_to_claimLt {a b : Listing} (hle : listingLE a b)
    (hne : a.path ≠ b.path)
    (ha : a.totalLength = a.path.length + 35)
    (hb : b.totalLength = b.path.length + 35) :
    claimLt a b := by
  unfold claimLt claimKeyLt
  dsimp only
  rw [listingLE_iff] at hle
  rcases hle with h | ⟨e1, h⟩ | ⟨e1, e2, h⟩
  · exact Or.inl h
  · exact Or.inr ⟨e1, Or.inl (by omega)⟩
  · refine Or.inr ⟨e1, Or.inr ⟨by omega, ?_⟩⟩
    have hz : compareBytes a.path b.path ≠ 0 :=
      fun hz => hne ((compareBytes_eq_zero _ _).mp hz)
    omega

/-- Bundle assignment only rewrites `bundleIndex`/`bundleOffset`; the sort
keys survive it unchanged. -/
theorem assign_map_key (c z : Nat) (ls : List Listing) :
    (assignBundles c z ls).map (fun l => (l.contentSize, l.path))
      = ls.map (fun l => (l.contentSize, l.path)) := by
  induction ls generalizing c z with
  | nil => rfl
  | cons l rest ih =>
    unfold assignBundles
    split_ifs <;> simp [ih]

/-- The listing sequence written to the listing header: sorted, then given
bundle positions (source lines 192–287). -/
def listingsForHeader (ls : List Listing) : List Listing :=
  assignBundles 0 0 (sortListings ls)

/-- C3: confirmed.  If the walked listings have pairwise distinct paths and
their `totalLength` fields are `path length + 35` (as the walk computes them
whenever `path length + 35` fits `uint16`, which the comparator relies on as
a proxy for path length), then the listings as written to the listing header
are strictly ascending in the tuple (content_size, path length in bytes,
path byte sequence): each adjacent pair is related by `claimLt`, so the
comparison never ties on all three keys. -/
theorem listingHeader_strictly_sorted (ls : List Listing)
    (hU : ls.Pairwise (fun a b => a.path ≠ b.path))
    (hT : ∀ l ∈ ls, l.totalLength = l.path.length + 35) :
    (listingsForHeader ls).Chain' claimLt := by
  have hperm : (sortListings ls).Perm ls := List.perm_insertionSort _ _
  have hsorted : (sortListings ls).Pairwise listingLE :=
    List.sorted_insertionSort listingLE ls
  have hU' : (sortListings ls).Pairwise (fun a b => a.path ≠ b.path) :=
    (List.Perm.pairwise_iff (fun hxy => fun he => hxy he.symm) hperm).mpr hU
  have hT' : ∀ l ∈ sortListings ls, l.totalLength = l.path.length + 35 :=
    fun l hl => hT l (hperm.mem_iff.mp hl)
  have hpair : (sortListings ls).Pairwise claimLt := by
    refine (hsorted.and hU').imp_of_mem ?_
    intro a b ha hb hab
    exact listingLE_to_claimLt hab.1 hab.2 (hT' a ha) (hT' b hb)
  have hchainKey :
      List.Chain' claimKeyLt
        ((sortListings ls).map (fun l => (l.contentSize, l.path))) := by
    rw [List.chain'_map]
    exact hpair.chain'
  have hchainKey2 :
      List.Chain' claimKeyLt
        ((listingsForHeader ls).map (fun l => (l.contentSize, l.path))) := by
    unfold listingsForHeader
    rw [assign_map_key]
    exact hchainKey
  have hres :=
    (List.chain'_map (fun l : Listing => (l.contentSize, l.path))).mp hchainKey2
  exact hres

/-- Closed witness for `listingHeader_strictly_sorted`: two out-of-order
listings (paths "b" and "a") get sorted and come out strictly ascending. -/
theorem listingHeader_strictly_sorted_witness :
    ([smallListingB, smallListingA].Pairwise (fun a b => a.path ≠ b.path))
    ∧ (∀ l ∈ [smallListingB, smallListingA], l.totalLength = l.path.length + 35)
    ∧ (listingsForHeader [smallListingB, smallListingA]).Chain' claimLt :=
  ⟨by decide, by decide,
    listingHeader_strictly_sorted [smallListingB, smallListingA]
      (by decide) (by decide)⟩

/-! ## Bundle-layout lemmas (for C9) -/

/-- Total content size assigned to bundle `k` in a listing sequence. -/
def sumIdx (ls : List Listing) (k : Nat) : Nat :=
  ((ls.filter (fun l => l.bundleIndex == k)).map (·.contentSize)).sum

theorem sumIdx_cons (l : Listing) (ls : List Listing) (k : Nat) :
    sumIdx (l :: ls) k
      = (if l.bundleIndex = k then l.contentSize else 0) + sumIdx ls k := by
  unfold sumIdx
  by_cases h : l.bundleIndex = k <;> simp [List.filter_cons, h]

/-- Unfolding lemma for one step of the assignment loop. -/
theorem assign_head (c z : Nat) (l : Listing) (rest : List Listing) :
    assignBundles c z (l :: rest)
      = (if z > targetBundleSize ∨ rest = [] then
          { l with bundleIndex := c + 1, bundleOffset := 0 } ::
            assignBundles (c + 1) l.contentSize rest
        else
          { l with bundleIndex := c, bundleOffset := z } ::
            assignBundles c (z + l.contentSize) rest) := rfl

/-- Offsets accumulate: every assigned listing's `bundleOffset +
contentSize` is bounded by the carried-in partial size of the open bundle
plus everything the result contributes to that listing's bundle. -/
theorem assign_mem_le (ls : List Listing) :
    ∀ (c z : Nat), ∀ x ∈ assignBundles c z ls,
      x.bundleOffset + x.contentSize
        ≤ (if x.bundleIndex = c then z else 0)
          + sumIdx (assignBundles c z ls) x.bundleIndex := by
  induction ls with
  | nil => intro c z x hx; simp [assignBundles] at hx
  | cons l rest ih =>
    intro c z x hx
    rw [assign_head] at hx ⊢
    split_ifs at hx with hc
    · rw [if_pos hc, sumIdx_cons]
      rcases List.mem_cons.mp hx with hx | hx
      · subst hx
        dsimp only
        split_ifs <;> omega
      · have hih := ih (c + 1) l.contentSize x hx
        dsimp only
        split_ifs at hih ⊢ <;> omega
    · rw [if_neg hc, sumIdx_cons]
      rcases List.mem_cons.mp hx with hx | hx
      · subst hx
        dsimp only
        split_ifs <;> omega
      · have hih := ih c (z + l.contentSize) x hx
        dsimp only
        split_ifs at hih ⊢ <;> omega

/-- Adjacent listings: indices never decrease, and when the bundle does not
change the offset advances by exactly the previous content size. -/
theorem assign_chain (ls : List Listing) :
    ∀ c z,
      List.Chain'
        (fun x y => x.bundleIndex ≤ y.bundleIndex
          ∧ (x.bundleIndex = y.bundleIndex →
              y.bundleOffset = x.bundleOffset + x.contentSize))
        (assignBundles c z ls) := by
  induction ls with
  | nil => intro c z; simp [assignBundles]
  | cons l rest ih =>
    intro c z
    cases rest with
    | nil => simp [assignBundles]
    | cons l2 rest2 =>
      by_cases h1 : z > targetBundleSize ∨ (l2 :: rest2 : List Listing) = []
      · rw [assign_head, if_pos h1]
        by_cases h2 : l.contentSize > targetBundleSize ∨ rest2 = []
        · rw [assign_head, if_pos h2]
          refine List.chain'_cons.mpr ⟨?_, ?_⟩
          · refine ⟨by dsimp only; omega, fun he => ?_⟩
            dsimp only at he ⊢; omega
          · have hch := ih (c + 1) l.contentSize
            rw [assign_head, if_pos h2] at hch
            exact hch
        · rw [assign_head, if_neg h2]
          refine List.chain'_cons.mpr ⟨?_, ?_⟩
          · refine ⟨by dsimp only; omega, fun he => ?_⟩
            dsimp only at he ⊢; omega
          · have hch := ih (c + 1) l.contentSize
            rw [assign_head, if_neg h2] at hch
            exact hch
      · rw [assign_head, if_neg h1]
        by_cases h2 : z + l.contentSize > targetBundleSize ∨ rest2 = []
        · rw [assign_head, if_pos h2]
          refine List.chain'_cons.mpr ⟨?_, ?_⟩
          · refine ⟨by dsimp only; omega, fun he => ?_⟩
            dsimp only at he ⊢; omega
          · have hch := ih c (z + l.contentSize)
            rw [assign_head, if_pos h2] at hch
            exact hch
        · rw [assign_head, if_neg h2]
          refine List.chain'_cons.mpr ⟨?_, ?_⟩
          · refine ⟨by dsimp only; omega, fun he => ?_⟩
            dsimp only at he ⊢
            try omega
          · have hch := ih c (z + l.contentSize)
            rw [assign_head, if_neg h2] at hch
            exact hch

/-- Assignment does not change content sizes or contents. -/
theorem assign_preserves_sz (ls : List Listing)
    (hsz : ∀ l ∈ ls, l.contentSize = l.fileContent.length) :
    ∀ c z, ∀ l ∈ assignBundles c z ls, l.contentSize = l.fileContent.length := by
  induction ls with
  | nil => intro c z l hl; simp [assignBundles] at hl
  | cons x rest ih =>
    intro c z l hl
    have hx := hsz x (by simp)
    have hrest : ∀ l ∈ rest, l.contentSize = l.fileContent.length :=
      fun y hy => hsz y (by simp [hy])
    rw [assign_head] at hl
    split_ifs at hl
    · rcases List.mem_cons.mp hl with hm | hm
      · subst hm; exact hx
      · exact ih hrest _ _ l hm
    · rcases List.mem_cons.mp hl with hm | hm
      · subst hm; exact hx
      · exact ih hrest _ _ l hm

/-- The uncompressed bundle length is the assigned content-size total. -/
theorem bundleContent_length (a : List Listing)
    (ha : ∀ l ∈ a, l.contentSize = l.fileContent.length) (k : Nat) :
    (bundleContent a k).length = sumIdx a k := by
  induction a with
  | nil => rfl
  | cons l rest ih =>
    have hl := ha l (by simp)
    have hrest : ∀ x ∈ rest, x.contentSize = x.fileContent.length :=
      fun y hy => ha y (by simp [hy])
    rw [sumIdx_cons]
    unfold bundleContent at ih ⊢
    by_cases h : l.bundleIndex = k
    · simp [List.filter_cons, h, ih hrest, hl]
    · simp [List.filter_cons, h, ih hrest]

/-- C9: confirmed.  After the bundle-assignment loop (run, as in `Archive`,
with initial state 0/0 on listings whose `contentSize` is the length of
their content), (a) every listing's `bundleOffset + contentSize` is at most
the total uncompressed size of the bundle it is assigned to, and (b) any two
listings of the same bundle with no listing of that bundle strictly between
them are laid out contiguously: the later offset is the earlier offset plus
the earlier content size. -/
theorem bundle_layout_invariants (ls : List Listing)
    (hsz : ∀ l ∈ ls, l.contentSize = l.fileContent.length) :
    (∀ i (h : i < (assignBundles 0 0 ls).length),
        ((assignBundles 0 0 ls).get ⟨i, h⟩).bundleOffset
            + ((assignBundles 0 0 ls).get ⟨i, h⟩).contentSize
          ≤ (bundleContent (assignBundles 0 0 ls)
              (((assignBundles 0 0 ls).get ⟨i, h⟩).bundleIndex)).length)
    ∧ (∀ i j (hi : i < (assignBundles 0 0 ls).length)
          (hj : j < (assignBundles 0 0 ls).length), i < j →
        ((assignBundles 0 0 ls).get ⟨i, hi⟩).bundleIndex
            = ((assignBundles 0 0 ls).get ⟨j, hj⟩).bundleIndex →
        (∀ m (hm : m < (assignBundles 0 0 ls).length), i < m → m < j →
          ((assignBundles 0 0 ls).get ⟨m, hm⟩).bundleIndex
            ≠ ((assignBundles 0 0 ls).get ⟨i, hi⟩).bundleIndex) →
        ((assignBundles 0 0 ls).get ⟨j, hj⟩).bundleOffset
          = ((assignBundles 0 0 ls).get ⟨i, hi⟩).bundleOffset
            + ((assignBundles 0 0 ls).get ⟨i, hi⟩).contentSize) := by
  constructor
  · intro i h
    have hmem : (assignBundles 0 0 ls).get ⟨i, h⟩ ∈ assignBundles 0 0 ls :=
      List.get_mem _ _ _
    have hle := assign_mem_le ls 0 0 _ hmem
    have hsz' := assign_preserves_sz ls hsz 0 0
    rw [bundleContent_length _ hsz']
    simpa using hle
  · intro i j hi hj hij heq hbet
    have hchain := assign_chain ls 0 0
    have hmono : List.Chain' (fun x y => x.bundleIndex ≤ y.bundleIndex)
        (assignBundles 0 0 ls) :=
      hchain.imp (fun _ _ hab => hab.1)
    letI : IsTrans Listing (fun x y => x.bundleIndex ≤ y.bundleIndex) :=
      ⟨fun _ _ _ hab hbc => le_trans hab hbc⟩
    have hpw := List.chain'_iff_pairwise.mp hmono
    have hget := List.pairwise_iff_get.mp hpw
    have hj1 : j = i + 1 := by
      by_contra hne
      have hmid : i + 1 < j := by omega
      have hmlt : i + 1 < (assignBundles 0 0 ls).length := by omega
      have h1 := hget ⟨i, hi⟩ ⟨i + 1, hmlt⟩ (Fin.mk_lt_mk.mpr (by omega))
      have h2 := hget ⟨i + 1, hmlt⟩ ⟨j, hj⟩ (Fin.mk_lt_mk.mpr hmid)
      exact hbet (i + 1) hmlt (by omega) hmid (by omega)
    subst hj1
    have hadj := List.chain'_iff_get.mp hchain i (by omega)
    exact hadj.2 heq

/-- Closed witness for `bundle_layout_invariants`, at two 1-byte
listings. -/
theorem bundle_layout_invariants_witness :
    (∀ l ∈ [smallListingA, smallListingB], l.contentSize = l.fileContent.length)
    ∧ ((∀ i (h : i < (assignBundles 0 0 [smallListingA, smallListingB]).length),
        ((assignBundles 0 0 [smallListingA, smallListingB]).get ⟨i, h⟩).bundleOffset
            + ((assignBundles 0 0 [smallListingA, smallListingB]).get ⟨i, h⟩).contentSize
          ≤ (bundleContent (assignBundles 0 0 [smallListingA, smallListingB])
              (((assignBundles 0 0 [smallListingA, smallListingB]).get ⟨i, h⟩).bundleIndex)).length)
    ∧ (∀ i j (hi : i < (assignBundles 0 0 [smallListingA, smallListingB]).length)
          (hj : j < (assignBundles 0 0 [smallListingA, smallListingB]).length), i < j →
        ((assignBundles 0 0 [smallListingA, smallListingB]).get ⟨i, hi⟩).bundleIndex
            = ((assignBundles 0 0 [smallListingA, smallListingB]).get ⟨j, hj⟩).bundleIndex →
        (∀ m (hm : m < (assignBundles 0 0 [smallListingA, smallListingB]).length), i < m → m < j →
          ((assignBundles 0 0 [smallListingA, smallListingB]).get ⟨m, hm⟩).bundleIndex
            ≠ ((assignBundles 0 0 [smallListingA, smallListingB]).get ⟨i, hi⟩).bundleIndex) →
        ((assignBundles 0 0 [smallListingA, smallListingB]).get ⟨j, hj⟩).bundleOffset
          = ((assignBundles 0 0 [smallListingA, smallListingB]).get ⟨i, hi⟩).bundleOffset
            + ((assignBundles 0 0 [smallListingA, smallListingB]).get ⟨i, hi⟩).contentSize)) :=
  ⟨by decide, bundle_layout_invariants [smallListingA, smallListingB] (by decide)⟩

end Decaf
